import Mathlib

/-!
Verification of the bitprim-blockchain consensus core: a shallow embedding of
the block validator, chain view adapter, UTXO index and locator fetch, with
theorems settling the frozen claims about them.

Machine integers are modelled as Nat with explicit reduction modulo a power of
two where the source wraps.  Digests (sha256, block and transaction hashes)
live outside the repository; they are modelled as deterministic injective
encodings into Nat, which preserves every property the claims depend on.
-/

namespace Bitprim

/-! ## Data model -/

/-- Identity of a transaction output: (tx hash, output index). -/
structure OutPoint where
  hash : Nat
  index : Nat
deriving DecidableEq

/-- Identity of a spending input: (tx hash, input index). -/
structure InPoint where
  hash : Nat
  index : Nat
deriving DecidableEq

/-- One script operation: an opcode byte plus its push data. -/
structure Operation where
  code : Nat
  data : List Nat
deriving DecidableEq

/-- A script is the ordered list of its operations. -/
abbrev Script := List Operation

structure TxInput where
  previousOutput : OutPoint
  script : Script
  sequence : Nat
deriving DecidableEq

structure TxOutput where
  value : Nat
  script : Script
deriving DecidableEq

structure Transaction where
  version : Nat
  inputs : List TxInput
  outputs : List TxOutput
  locktime : Nat
deriving DecidableEq

structure BlockHeader where
  version : Nat
  prevHash : Nat
  merkle : Nat
  timestamp : Nat
  bits : Nat
  nonce : Nat
deriving DecidableEq

structure Block where
  header : BlockHeader
  transactions : List Transaction
deriving DecidableEq

instance : Inhabited OutPoint := ⟨⟨0, 0⟩⟩
instance : Inhabited Operation := ⟨⟨0, []⟩⟩
instance : Inhabited InPoint := ⟨⟨0, 0⟩⟩
instance : Inhabited TxInput := ⟨⟨default, [], 0⟩⟩
instance : Inhabited TxOutput := ⟨⟨0, []⟩⟩
instance : Inhabited Transaction := ⟨⟨0, [], [], 0⟩⟩
instance : Inhabited BlockHeader := ⟨⟨0, 0, 0, 0, 0, 0⟩⟩
instance : Inhabited Block := ⟨⟨default, []⟩⟩

/-! ## Constants (validate_block.cpp, mainnet branch) -/

def maxUint32 : Nat := 4294967295
def maxBlockSize : Nat := 1000000
def maxBlockScriptSigOperations : Nat := maxBlockSize / 50
def targetTimespan : Nat := 2 * 7 * 24 * 60 * 60
def targetSpacing : Nat := 10 * 60
def readjustmentInterval : Nat := targetTimespan / targetSpacing
def coinbaseMaturity : Nat := 100
def maxMoney : Nat := 2100000000000000
def sampleSize : Nat := 1000
def enforcedCount : Nat := 950
def activatedCount : Nat := 750
def bip16ActivationHeight : Nat := 173805
def bip30ExceptionHeight1 : Nat := 91842
def bip30ExceptionHeight2 : Nat := 91880
def maxWorkBits : Nat := 486604799

/-! ## Modelled digests

Modelled from the spec: sha256 based digests (hash_transaction,
hash_block_header, the merkle combiner and the UTXO fingerprint key) come from
the external bitcoin library; they are modelled as deterministic injective
encodings via Nat.pair, which is all the claims rely on. -/

def encodeList (f : α → Nat) (l : List α) : Nat :=
  l.foldr (fun a n => Nat.pair (f a) n + 1) 0

def encodeOutPoint (o : OutPoint) : Nat := Nat.pair o.hash o.index

def encodeInput (i : TxInput) : Nat :=
  Nat.pair (encodeOutPoint i.previousOutput)
    (Nat.pair (encodeList (fun op => Nat.pair op.code (encodeList id op.data)) i.script)
      i.sequence)

def encodeOutput (o : TxOutput) : Nat :=
  Nat.pair o.value (encodeList (fun op => Nat.pair op.code (encodeList id op.data)) o.script)

/-- Modelled from the spec: hash_transaction, the external double-sha256 digest
of a transaction, as an injective encoding. -/
def hashTransaction (tx : Transaction) : Nat :=
  Nat.pair tx.version
    (Nat.pair (encodeList encodeInput tx.inputs)
      (Nat.pair (encodeList encodeOutput tx.outputs) tx.locktime))

/-- Modelled from the spec: hash_block_header, the external double-sha256
digest of a header, as an injective encoding reduced into the low 208 bits of
the uint256 range (any digest model is admissible; this one lets concrete
witnesses satisfy the proof-of-work comparison against max_target). -/
def hashBlockHeader (h : BlockHeader) : Nat :=
  (Nat.pair h.version
    (Nat.pair h.prevHash
      (Nat.pair h.merkle (Nat.pair h.timestamp (Nat.pair h.bits h.nonce))))) % 2 ^ 208

/-- previous_output_is_null: hash all zero bytes and index 0xFFFFFFFF. -/
def previousOutputIsNull (p : OutPoint) : Bool :=
  p.hash = 0 && p.index = maxUint32

/-- is_coinbase: a single input whose previous output is null. -/
def isCoinbase (tx : Transaction) : Bool :=
  tx.inputs.length = 1 && previousOutputIsNull (tx.inputs.headD default).previousOutput

/-! ## Chain view adapter (src/implementation/validate_block_impl.cpp) -/

/-- The state the chain view adapter composes: persistent spends and
transaction indexes up to fork_index, plus the in-memory orphan branch. -/
structure ChainView where
  spends : List (OutPoint × InPoint)
  txIndex : List (Nat × (Transaction × Nat))
  forkIndex : Nat
  orphanChain : List Block
  orphanIndex : Nat

/-- interface_.spends.get: the spends index record for an outpoint. -/
def spendsGet (v : ChainView) (o : OutPoint) : Option InPoint :=
  (v.spends.find? (fun e => decide (e.1 = o))).map (fun e => e.2)

/-- interface_.transactions.get: the transaction index record for a hash. -/
def txIndexGet (v : ChainView) (h : Nat) : Option (Transaction × Nat) :=
  (v.txIndex.find? (fun e => decide (e.1 = h))).map (fun e => e.2)

/-- tx_after_fork: the recorded height is above the fork point. -/
def txAfterFork (txHeight forkIndex : Nat) : Bool :=
  forkIndex < txHeight

/-- validate_block_impl::transaction_exists. -/
def transactionExists (v : ChainView) (h : Nat) : Bool :=
  match txIndexGet v h with
  | none => false
  | some e => !(txAfterFork e.2 v.forkIndex)

/-- validate_block_impl::is_output_spent (one parameter, committed chain):
spends record present and the spending transaction exists at or below the
fork point. -/
def isOutputSpentCommitted (v : ChainView) (o : OutPoint) : Bool :=
  match spendsGet v o with
  | none => false
  | some ip => transactionExists v ip.hash

/-- Modelled from the spec: simple_chain::contains_outpoint_in_utxo is not
under src/; by section 3 of the spec a UTXO record is present exactly when the
output has been spent on the committed chain, so membership is lookup success
in the outpoint-keyed index. -/
def containsOutpointInUtxo (utxo : List (OutPoint × InPoint)) (o : OutPoint) : Bool :=
  ((utxo.find? (fun e => decide (e.1 = o))).map (fun e => e.2)).isSome

/-- validate_block_impl::is_output_spent (one parameter) in
src/validate_block_impl.cpp: the active path returns the negated UTXO
membership test and ignores fork_index. -/
def isOutputSpentFer (utxo : List (OutPoint × InPoint)) (o : OutPoint) : Bool :=
  !(containsOutpointInUtxo utxo o)

/-- validate_block_impl::fetch_orphan_transaction: scan orphan blocks zero
through orphan_index in order for a transaction with the given hash. -/
def fetchOrphanTransaction (v : ChainView) (h : Nat) : Option (Transaction × Nat) :=
  (List.range (v.orphanIndex + 1)).findSome? (fun orphan =>
    ((v.orphanChain.getD orphan default).transactions.find?
      (fun tx => decide (hashTransaction tx = h))).map
        (fun tx => (tx, v.forkIndex + orphan + 1)))

/-- validate_block_impl::fetch_transaction: persistent index first, orphan
fallback when absent or above the fork point. -/
def fetchTransaction (v : ChainView) (h : Nat) : Option (Transaction × Nat) :=
  match txIndexGet v h with
  | none => fetchOrphanTransaction v h
  | some e =>
    if txAfterFork e.2 v.forkIndex then fetchOrphanTransaction v h
    else some e

/-- validate_block_impl::orphan_is_spent: any input of any transaction of
orphan blocks zero through orphan_index references the outpoint, skipping
exactly the position (orphan_index, skip_tx, skip_input). -/
def orphanIsSpent (v : ChainView) (o : OutPoint) (skipTx skipInput : Nat) : Bool :=
  (List.range (v.orphanIndex + 1)).any (fun orphan =>
    let txs := (v.orphanChain.getD orphan default).transactions
    (List.range txs.length).any (fun txIdx =>
      let tx := txs.getD txIdx default
      (List.range tx.inputs.length).any (fun inIdx =>
        if orphan = v.orphanIndex ∧ txIdx = skipTx ∧ inIdx = skipInput then false
        else decide ((tx.inputs.getD inIdx default).previousOutput = o))))

/-- validate_block_impl::is_output_spent (three parameters, full check): the
committed-chain early return followed by the orphan scan. -/
def isOutputSpentFull (v : ChainView) (o : OutPoint) (skipTx skipInput : Nat) : Bool :=
  isOutputSpentCommitted v o || orphanIsSpent v o skipTx skipInput

/-! ## Record hash table and UTXO index (src/unnamed/part_003)

The htdb_record container itself is not under src/ (only its caller,
utxo_database, is); its store, get and unlink operations are modelled from
section 4.3 of the spec: separate chaining, store pushes a fresh record at the
bucket head, get returns the first full-key match along the chain, unlink
removes the first match by repointing its predecessor and leaks the slot. -/

structure HtdbRecord where
  key : Nat
  next : Option Nat
  value : InPoint
deriving DecidableEq

structure Htdb where
  numberBuckets : Nat
  buckets : List (Nat × Option Nat)
  records : List (Nat × HtdbRecord)
  nextIndex : Nat

def htdbNumberBuckets : Nat := 228110589

/-- htdb_record_header::bucket_for: stable hash of the key reduced modulo the
bucket count (the key is already a digest). -/
def bucketFor (db : Htdb) (key : Nat) : Nat :=
  key % db.numberBuckets

/-- Current head record index of a bucket (sentinel null when unset). -/
def bucketHead (db : Htdb) (b : Nat) : Option Nat :=
  match db.buckets.find? (fun e => decide (e.1 = b)) with
  | none => none
  | some e => e.2

/-- record_allocator::get: the record stored at an allocator index. -/
def recordAt (db : Htdb) (i : Nat) : Option HtdbRecord :=
  (db.records.find? (fun e => decide (e.1 = i))).map (fun e => e.2)

/-- Overwrite one bucket head. -/
def setBucket (db : Htdb) (b : Nat) (h : Option Nat) : Htdb :=
  { db with buckets := (b, h) :: db.buckets.filter (fun e => !decide (e.1 = b)) }

/-- Repoint the next pointer of the record at index i. -/
def setNext (db : Htdb) (i : Nat) (n : Option Nat) : Htdb :=
  { db with records := db.records.map (fun e =>
      if e.1 = i then (e.1, { e.2 with next := n }) else e) }

/-- htdb_record::get chain walk: first record whose full key matches.  The
fuel bounds the walk by the record count, which covers every acyclic chain. -/
def getChain (db : Htdb) : Nat → Option Nat → Nat → Option InPoint
  | 0, _, _ => none
  | _, none, _ => none
  | fuel + 1, some idx, key =>
    match recordAt db idx with
    | none => none
    | some r => if r.key = key then some r.value else getChain db fuel r.next key

/-- htdb_record::get. -/
def htdbGet (db : Htdb) (key : Nat) : Option InPoint :=
  getChain db (db.records.length + 1) (bucketHead db (bucketFor db key)) key

/-- htdb_record::store: allocate a record whose next is the current bucket
head, then publish it as the new head. -/
def htdbStore (db : Htdb) (key : Nat) (value : InPoint) : Htdb :=
  let b := bucketFor db key
  let fresh : HtdbRecord := { key := key, next := bucketHead db b, value := value }
  setBucket { db with records := (db.nextIndex, fresh) :: db.records,
                      nextIndex := db.nextIndex + 1 } b (some db.nextIndex)

/-- htdb_record::unlink chain walk: drop the first match by repointing the
bucket head or the predecessor; the freed slot is leaked. -/
def unlinkChain (db : Htdb) (b : Nat) : Nat → Option Nat → Nat → (Htdb × Bool)
  | 0, _, _ => (db, false)
  | _, none, _ => (db, false)
  | fuel + 1, some idx, key =>
    match recordAt db idx with
    | none => (db, false)
    | some r =>
      if r.key = key then (setBucket db b r.next, true)
      else unlinkAfter db idx fuel r.next key
where
  unlinkAfter (db : Htdb) (prev : Nat) : Nat → Option Nat → Nat → (Htdb × Bool)
  | 0, _, _ => (db, false)
  | _, none, _ => (db, false)
  | fuel + 1, some idx, key =>
    match recordAt db idx with
    | none => (db, false)
    | some r =>
      if r.key = key then (setNext db prev r.next, true)
      else unlinkAfter db idx fuel r.next key

/-- htdb_record::unlink. -/
def htdbUnlink (db : Htdb) (key : Nat) : Htdb × Bool :=
  let b := bucketFor db key
  unlinkChain db b (db.records.length + 1) (bucketHead db b) key

/-- Modelled from the spec: output_to_hash re-hashes (tx_hash, index) through
the external sha256; modelled as an injective fingerprint of the pair. -/
def outputToHash (o : OutPoint) : Nat :=
  Nat.pair o.hash o.index

/-- utxo_database::get. -/
def utxoGet (db : Htdb) (o : OutPoint) : Option InPoint :=
  htdbGet db (outputToHash o)

/-- utxo_database::store. -/
def utxoStore (db : Htdb) (o : OutPoint) (spend : InPoint) : Htdb :=
  htdbStore db (outputToHash o) spend

/-- utxo_database::remove. -/
def utxoRemove (db : Htdb) (o : OutPoint) : Htdb :=
  (htdbUnlink db (outputToHash o)).1

/-- utxo_database::create on an empty file. -/
def utxoCreate : Htdb :=
  { numberBuckets := htdbNumberBuckets, buckets := [], records := [], nextIndex := 0 }

/-! ## Error kinds (section 7) -/

inductive Err where
  | serviceStopped
  | sizeLimits
  | proofOfWork
  | futuristicTimestamp
  | firstNotCoinbase
  | extraCoinbases
  | emptyTransaction
  | outputValueOverflow
  | duplicateInput
  | invalidCoinbaseScriptSize
  | previousOutputNull
  | duplicate
  | tooManySigs
  | merkleMismatch
  | incorrectProofOfWork
  | timestampTooEarly
  | nonFinalTransaction
  | checkpointsFailed
  | oldVersionBlock
  | coinbaseHeightMismatch
  | duplicateOrSpent
  | validateInputsFailed
  | feesOutOfRange
  | coinbaseTooLarge
deriving DecidableEq

/-! ## Script serialization and sigop counting (validate_block.cpp) -/

/-- Opcode raw values used by the validator. -/
def opSpecial : Nat := 1
def opChecksig : Nat := 172
def opChecksigverify : Nat := 173
def opCheckmultisig : Nat := 174
def opCheckmultisigverify : Nat := 175

/-- within_op_n: raw code between op_1 (81) and op_16 (96). -/
def withinOpN (code : Nat) : Bool :=
  81 ≤ code && code ≤ 96

/-- decode_op_n: raw code minus op_1 plus one. -/
def decodeOpN (code : Nat) : Nat :=
  code - 80

/-- count_script_sigops: walk the operations tracking the preceding opcode;
checksig variants count one, checkmultisig variants count the preceding op_n
in accurate mode and twenty otherwise. -/
def countScriptSigops (accurate : Bool) : Nat → List Operation → Nat
  | _, [] => 0
  | last, op :: rest =>
    (if op.code = opChecksig ∨ op.code = opChecksigverify then 1
     else if op.code = opCheckmultisig ∨ op.code = opCheckmultisigverify then
       if accurate && withinOpN last then decodeOpN last else 20
     else 0) + countScriptSigops accurate op.code rest

/-- Sigop count of one script (initial preceding opcode is the sentinel). -/
def scriptSigops (accurate : Bool) (s : Script) : Nat :=
  countScriptSigops accurate 0 s

/-- legacy_sigops_count over one transaction: inputs then outputs, inaccurate. -/
def legacySigopsCountTx (tx : Transaction) : Nat :=
  (tx.inputs.map (fun i => scriptSigops false i.script)).sum +
    (tx.outputs.map (fun o => scriptSigops false o.script)).sum

/-- legacy_sigops_count over a transaction list. -/
def legacySigopsCountTxs (txs : List Transaction) : Nat :=
  (txs.map legacySigopsCountTx).sum

/-- Modelled from the spec: save_script, the external script serializer; a
special push serializes as a length byte followed by the data, any other
operation as its opcode byte. -/
def serializeOp (op : Operation) : List Nat :=
  if op.code = opSpecial then op.data.length :: op.data else [op.code]

def saveScript (s : Script) : List Nat :=
  (s.map serializeOp).flatten

/-- Serialized byte size of a script. -/
def scriptRawSize (s : Script) : Nat :=
  (saveScript s).length

/-- Modelled from the spec: satoshi_raw_size, the external block serializer,
as a deterministic per-field byte count. -/
def txRawSize (tx : Transaction) : Nat :=
  8 + (tx.inputs.map (fun i => 41 + scriptRawSize i.script)).sum +
    (tx.outputs.map (fun o => 9 + scriptRawSize o.script)).sum

def blockRawSize (b : Block) : Nat :=
  81 + (b.transactions.map txRawSize).sum

/-- Little-endian base-256 digits, fuel-driven so that it reduces in the
kernel; the fuel n always suffices since the value shrinks by 256 each step. -/
def natBytesLEAux : Nat → Nat → List Nat
  | 0, _ => []
  | fuel + 1, n => if n = 0 then [] else n % 256 :: natBytesLEAux fuel (n / 256)

/-- Little-endian base-256 digits of a natural number, no trailing zero. -/
def natBytesLE (n : Nat) : List Nat :=
  natBytesLEAux n n

/-- Modelled from the spec: script_number data, the minimally serialized
signed little-endian encoding of a nonnegative height; a sign byte is added
when the top bit of the last byte is set. -/
def scriptNumData (n : Nat) : List Nat :=
  let bs := natBytesLE n
  if bs = [] then []
  else if 128 ≤ bs.getLastD 0 then bs ++ [0] else bs

/-- validate_block::is_valid_coinbase_height: the serialized coinbase input
script must begin with the bytes of a single push of the height. -/
def isValidCoinbaseHeight (height : Nat) (b : Block) : Bool :=
  if b.transactions.isEmpty || (b.transactions.headD default).inputs.isEmpty then false
  else
    let raw := saveScript ((b.transactions.headD default).inputs.headD default).script
    let expect := saveScript [⟨opSpecial, scriptNumData height⟩]
    if raw.length < expect.length then false
    else decide (raw.take expect.length = expect)

/-! ## Compact target arithmetic

Modelled from the spec: hash_number (the external 256-bit target type) with
the standard compact encoding; arithmetic wraps modulo 2^256. -/

/-- set_compact decoded value. -/
def setCompactValue (c : Nat) : Nat :=
  let size := c / 2 ^ 24
  let word := c % 2 ^ 23
  if size ≤ 3 then word / 2 ^ (8 * (3 - size))
  else (word * 2 ^ (8 * (size - 3))) % 2 ^ 256

/-- set_compact sign bit check. -/
def setCompactNegative (c : Nat) : Bool :=
  c % 2 ^ 23 ≠ 0 && (c / 2 ^ 23) % 2 = 1

/-- set_compact overflow check. -/
def setCompactOverflow (c : Nat) : Bool :=
  let size := c / 2 ^ 24
  let word := c % 2 ^ 23
  word ≠ 0 && (34 < size || (255 < word && 33 < size) || (65535 < word && 32 < size))

/-- set_compact success. -/
def setCompactOk (c : Nat) : Bool :=
  !(setCompactNegative c || setCompactOverflow c)

/-- Byte length, fuel-driven like natBytesLEAux. -/
def byteLengthAux : Nat → Nat → Nat
  | 0, _ => 0
  | fuel + 1, n => if n = 0 then 0 else byteLengthAux fuel (n / 256) + 1

/-- Byte length of a natural number. -/
def byteLength (n : Nat) : Nat :=
  byteLengthAux n n

/-- compact re-encoding of a nonnegative target. -/
def compactEncode (value : Nat) : Nat :=
  let size := byteLength value
  let mantissa := if size ≤ 3 then value * 2 ^ (8 * (3 - size)) else value / 2 ^ (8 * (size - 3))
  if 2 ^ 23 ≤ mantissa then mantissa / 2 ^ 8 + (size + 1) * 2 ^ 24
  else mantissa + size * 2 ^ 24

/-- max_target: the expansion of the compact value 0x1d00ffff. -/
def maxTarget : Nat := 65535 * 2 ^ 208

/-- validate_block::is_valid_proof_of_work: decode bits, require a target in
(0, max_target], and the header hash at most the target. -/
def isValidProofOfWork (hash bits : Nat) : Bool :=
  if !setCompactOk bits then false
  else
    let target := setCompactValue bits
    if target = 0 ∨ maxTarget < target then false
    else hash ≤ target

/-- is_valid_time_stamp: the block time is at most two hours past now. -/
def isValidTimeStamp (now timestamp : Nat) : Bool :=
  timestamp ≤ now + 7200

/-! ## Stateless transaction check

Modelled from the spec: validate_transaction::check_transaction is not under
src/; section 4.5 item 6 gives its content: non-empty inputs and outputs,
output values and their sum within max_money, no duplicate inputs, coinbase
script size between 2 and 100 bytes, otherwise no null previous output. -/

def checkTransaction (tx : Transaction) : Option Err :=
  if tx.inputs.isEmpty || tx.outputs.isEmpty then some .emptyTransaction
  else if tx.outputs.any (fun o => decide (maxMoney < o.value)) then some .outputValueOverflow
  else if maxMoney < (tx.outputs.map TxOutput.value).sum then some .outputValueOverflow
  else if ¬ (tx.inputs.map (fun i => i.previousOutput)).Nodup then some .duplicateInput
  else if isCoinbase tx then
    if scriptRawSize ((tx.inputs.headD default).script) < 2 ∨
        100 < scriptRawSize ((tx.inputs.headD default).script) then
      some .invalidCoinbaseScriptSize
    else none
  else if tx.inputs.any (fun i => previousOutputIsNull i.previousOutput) then some .previousOutputNull
  else none

/-! ## Merkle root

Modelled from the spec: generate_merkle_root, external; pairs of hashes are
combined by a digest modelled as an injective encoding, an odd list repeats
its last element, and the empty list yields the null hash. -/

def hashPairDigest (a b : Nat) : Nat :=
  Nat.pair a b + 1

def merklePass : List Nat → List Nat
  | [] => []
  | [a] => [hashPairDigest a a]
  | a :: b :: rest => hashPairDigest a b :: merklePass rest

def merkleFold : Nat → List Nat → Nat
  | _, [] => 0
  | _, [a] => a
  | 0, _ => 0
  | fuel + 1, l => merkleFold fuel (merklePass l)

def generateMerkleRoot (txs : List Transaction) : Nat :=
  merkleFold txs.length (txs.map hashTransaction)

/-! ## check_block (Phase A) -/

/-- is_distinct_tx_set: hash every transaction, sort, and require no adjacent
duplicates (std::sort followed by std::unique reaching the end). -/
def hasAdjacentDup : List Nat → Bool
  | [] => false
  | [_] => false
  | a :: b :: rest => a = b || hasAdjacentDup (b :: rest)

def isDistinctTxSet (txs : List Transaction) : Bool :=
  !(hasAdjacentDup (List.insertionSort (· ≤ ·) (txs.map hashTransaction)))

/-- The never-stopping callback (the constructor default). -/
def noStop : Nat → Bool := fun _ => false

/-- The always-stopping callback. -/
def allStop : Nat → Bool := fun _ => true

/-- The extra-coinbase loop of check_block: each iteration consults the
stopped callback, then rejects a coinbase.  Returns the outcome and the next
consultation counter. -/
def extraCoinbasesLoop (stopped : Nat → Bool) : Nat → List Transaction → Option Err × Nat
  | k, [] => (none, k)
  | k, tx :: rest =>
    if stopped k then (some .serviceStopped, k + 1)
    else if isCoinbase tx then (some .extraCoinbases, k + 1)
    else extraCoinbasesLoop stopped (k + 1) rest

/-- The per-transaction check loop of check_block: each iteration consults the
stopped callback, then runs the stateless transaction check. -/
def checkTxLoop (stopped : Nat → Bool) : Nat → List Transaction → Option Err × Nat
  | k, [] => (none, k)
  | k, tx :: rest =>
    if stopped k then (some .serviceStopped, k + 1)
    else match checkTransaction tx with
      | some e => (some e, k + 1)
      | none => checkTxLoop stopped (k + 1) rest

/-- validate_block::check_block, with the stopped callback modelled as a
predicate on the consultation counter and the wall clock passed as now. -/
def checkBlock (stopped : Nat → Bool) (now : Nat) (b : Block) : Option Err :=
  let txs := b.transactions
  if txs.isEmpty ∨ maxBlockSize < txs.length ∨ maxBlockSize < blockRawSize b then
    some .sizeLimits
  else if !isValidProofOfWork (hashBlockHeader b.header) b.header.bits then
    some .proofOfWork
  else if stopped 0 then some .serviceStopped
  else if !isValidTimeStamp now b.header.timestamp then some .futuristicTimestamp
  else if stopped 1 then some .serviceStopped
  else if !isCoinbase (txs.headD default) then some .firstNotCoinbase
  else match extraCoinbasesLoop stopped 2 txs.tail with
  | (some e, _) => some e
  | (none, k1) =>
    match checkTxLoop stopped k1 txs with
    | (some e, _) => some e
    | (none, k2) =>
      if stopped k2 then some .serviceStopped
      else if !isDistinctTxSet txs then some .duplicate
      else if stopped (k2 + 1) then some .serviceStopped
      else if maxBlockScriptSigOperations < legacySigopsCountTxs txs then some .tooManySigs
      else if stopped (k2 + 2) then some .serviceStopped
      else if b.header.merkle ≠ generateMerkleRoot txs then some .merkleMismatch
      else none

/-! ## accept_block (Phase B) -/

/-- Soft fork flags (script_context bits). -/
inductive Flag where
  | bip16
  | bip30
  | bip34
  | bip65
  | bip66
deriving DecidableEq

/-- Activation state set by initialize_context. -/
structure Activations where
  bip16 : Bool
  bip30 : Bool
  bip34 : Bool
  bip65 : Bool
  bip66 : Bool
deriving DecidableEq

def flagEnabled (acts : Activations) : Flag → Bool
  | .bip16 => acts.bip16
  | .bip30 => acts.bip30
  | .bip34 => acts.bip34
  | .bip65 => acts.bip65
  | .bip66 => acts.bip66

/-- validate_block::is_active: the flag must be in the activation set and the
block version must reach the per-flag version threshold (only bip65, bip66 and
bip34 have one; bip34 requires version at least 2). -/
def isActive (acts : Activations) (version : Nat) (flag : Flag) : Bool :=
  if !flagEnabled acts flag then false
  else
    (decide (flag = Flag.bip65) && 4 ≤ version) ||
    (decide (flag = Flag.bip66) && 3 ≤ version) ||
    (decide (flag = Flag.bip34) && 2 ≤ version)

/-- validate_block_impl::preceding_block_versions: up to min(maximum, height)
preceding versions, each clamped to 255 by the uint8 narrowing. -/
def precedingBlockVersions (fetch : Nat → BlockHeader) (height maximum : Nat) : List Nat :=
  (List.range (min maximum height)).map (fun index => min (fetch (height - index - 1)).version 255)

/-- The count_if of versions at least v used by initialize_context. -/
def versionCountGe (versions : List Nat) (v : Nat) : Nat :=
  versions.countP (fun x => decide (v ≤ x))

/-- validate_block::initialize_context: derive minimum_version and the
activation set from the preceding version sample and the height. -/
def initContext (fetch : Nat → BlockHeader) (height : Nat) : Nat × Activations :=
  let versions := precedingBlockVersions fetch height sampleSize
  let count4 := versionCountGe versions 4
  let count3 := versionCountGe versions 3
  let count2 := versionCountGe versions 2
  let minVersion :=
    if enforcedCount ≤ count4 then 4
    else if enforcedCount ≤ count3 then 3
    else if enforcedCount ≤ count2 then 2
    else 1
  let acts : Activations :=
    { bip65 := decide (activatedCount ≤ count4)
      bip66 := decide (activatedCount ≤ count3)
      bip34 := decide (activatedCount ≤ count2)
      bip30 := decide (height ≠ bip30ExceptionHeight1 ∧ height ≠ bip30ExceptionHeight2)
      bip16 := decide (bip16ActivationHeight ≤ height) }
  (minVersion, acts)

/-- Unsigned 32-bit subtraction as the source computes timestamp differences. -/
def sub32 (a b : Nat) : Nat :=
  (a % 2 ^ 32 + 2 ^ 32 - b % 2 ^ 32) % 2 ^ 32

/-- validate_block_impl::actual_timespan over an interval. -/
def actualTimespan (fetch : Nat → BlockHeader) (height interval : Nat) : Nat :=
  sub32 (fetch (height - 1)).timestamp (fetch (height - interval)).timestamp

/-- range_constrain from the external utility library. -/
def rangeConstrain (x lo hi : Nat) : Nat :=
  if x < lo then lo else if hi < x then hi else x

/-- The retarget quotient: the previous target expanded from its compact
bits, multiplied (in wrapping 256-bit arithmetic) by the constrained actual
timespan and divided by the target timespan. -/
def workRequiredScaled (fetch : Nat → BlockHeader) (height : Nat) : Nat :=
  setCompactValue (fetch (height - 1)).bits *
    rangeConstrain (actualTimespan fetch height readjustmentInterval)
      (targetTimespan / 4) (targetTimespan * 4) % 2 ^ 256 / targetTimespan

/-- validate_block::work_required, mainnet branch: genesis gets max_work_bits,
a non-boundary height inherits the previous bits, and a retarget boundary
rescales the previous target by the constrained actual timespan, capped at
max_target and re-encoded as compact bits. -/
def workRequired (fetch : Nat → BlockHeader) (height : Nat) : Nat :=
  if height = 0 then maxWorkBits
  else if height % readjustmentInterval ≠ 0 then (fetch (height - 1)).bits
  else compactEncode (if maxTarget < workRequiredScaled fetch height then maxTarget
    else workRequiredScaled fetch height)

/-- validate_block_impl::median_time_past: sorted preceding (up to 11)
timestamps, middle element, zero when empty. -/
def medianTimePast (fetch : Nat → BlockHeader) (height : Nat) : Nat :=
  let count := min height 11
  let times := (List.range count).map (fun i => (fetch (height - i - 1)).timestamp)
  let sorted := List.insertionSort (· ≤ ·) times
  if times.isEmpty then 0 else sorted.getD (times.length / 2) 0

/-- Modelled from the spec: chain::is_final, external; final when locktime is
zero, or below the height or time threshold, or every input sequence is
maximal. -/
def isFinal (tx : Transaction) (height timestamp : Nat) : Bool :=
  if tx.locktime = 0 then true
  else
    let bound := if tx.locktime < 500000000 then height else timestamp
    if tx.locktime < bound then true
    else tx.inputs.all (fun i => decide (i.sequence = maxUint32))

/-- Modelled from the spec: checkpoint::validate, not under src/; every
checkpoint at this height must carry the block hash. -/
def checkpointValidate (hash height : Nat) (checks : List (Nat × Nat)) : Bool :=
  checks.all (fun cp => !decide (cp.1 = height) || decide (cp.2 = hash))

/-- The context the contextual and connected phases read: candidate height and
block, checkpoint list, and the fields set by initialize_context. -/
structure ValidatorState where
  height : Nat
  block : Block
  checkpoints : List (Nat × Nat)
  minimumVersion : Nat
  activations : Activations

/-- The transaction finality loop of accept_block: the check precedes the
stopped consultation inside each iteration. -/
def finalLoop (stopped : Nat → Bool) (height timestamp : Nat) :
    Nat → List Transaction → Option Err × Nat
  | k, [] => (none, k)
  | k, tx :: rest =>
    if !isFinal tx height timestamp then (some .nonFinalTransaction, k)
    else if stopped k then (some .serviceStopped, k + 1)
    else finalLoop stopped height timestamp (k + 1) rest

/-- validate_block::accept_block. -/
def acceptBlock (stopped : Nat → Bool) (fetch : Nat → BlockHeader)
    (st : ValidatorState) : Option Err :=
  let hdr := st.block.header
  if hdr.bits ≠ workRequired fetch st.height then some .incorrectProofOfWork
  else if stopped 0 then some .serviceStopped
  else if hdr.timestamp ≤ medianTimePast fetch st.height then some .timestampTooEarly
  else if stopped 1 then some .serviceStopped
  else match finalLoop stopped st.height hdr.timestamp 2 st.block.transactions with
  | (some e, _) => some e
  | (none, k) =>
    if !checkpointValidate (hashBlockHeader hdr) st.height st.checkpoints then
      some .checkpointsFailed
    else if stopped k then some .serviceStopped
    else if !decide (st.minimumVersion ≤ hdr.version) then some .oldVersionBlock
    else if stopped (k + 1) then some .serviceStopped
    else if isActive st.activations hdr.version .bip34 &&
        !isValidCoinbaseHeight st.height st.block then
      some .coinbaseHeightMismatch
    else none

/-! ## connect_block (Phase C) -/

/-- Modelled from the spec: parse_script, external; a byte from 1 to 75 is a
push needing that many bytes (end_of_stream when short), any other byte is a
bare opcode. -/
def parseScriptBytes : List Nat → Option Script
  | [] => some []
  | b :: rest =>
    if 1 ≤ b ∧ b ≤ 75 then
      if rest.length < b then none
      else match parseScriptBytes (rest.drop b) with
        | none => none
        | some ops => some (⟨opSpecial, rest.take b⟩ :: ops)
    else match parseScriptBytes rest with
      | none => none
      | some ops => some (⟨b, []⟩ :: ops)
termination_by l => l.length
decreasing_by
  all_goals simp [List.length_drop]
  omega

/-- Modelled from the spec: the script_hash payment type pattern
hash160, twenty-byte push, equal. -/
def isScriptHashType : Script → Bool
  | [a, b, c] =>
    a.code = 169 && b.code = opSpecial && b.data.length = 20 && c.code = 135
  | _ => false

/-- script_hash_signature_operations_count, returning none where the source
catches end_of_stream from parse_script. -/
def scriptHashSigopsCount (outScript inScript : Script) : Option Nat :=
  if !isScriptHashType outScript then some 0
  else if inScript.isEmpty then some 0
  else match parseScriptBytes (inScript.getLastD default).data with
    | none => none
    | some evalScript => some (countScriptSigops true 0 evalScript)

/-- Sum of output values. -/
def totalOutputValue (tx : Transaction) : Nat :=
  (tx.outputs.map TxOutput.value).sum

/-- Modelled from the spec: validate_transaction::tally_fees, not under src/;
inputs must cover outputs and the accumulated fees must stay within
max_money. -/
def tallyFees (tx : Transaction) (valueIn fees : Nat) : Option Nat :=
  let out := totalOutputValue tx
  if valueIn < out then none
  else
    let fees2 := fees + (valueIn - out)
    if maxMoney < fees2 then none else some fees2

/-- block_value: the subsidy halves every 210000 heights by a right shift. -/
def blockValue (height : Nat) : Nat :=
  5000000000 / 2 ^ (height / 210000)

/-- validate_block::is_spent_duplicate: a prior transaction with the same
hash exists and every one of its outputs is spent. -/
def isSpentDuplicate (v : ChainView) (tx : Transaction) : Bool :=
  let h := hashTransaction tx
  if !transactionExists v h then false
  else (List.range tx.outputs.length).all (fun i => isOutputSpentCommitted v ⟨h, i⟩)

/-- validate_block::connect_input: fetch the previous transaction, add the
accurate pay-to-script-hash sigops, bound the output value, enforce coinbase
maturity, run the external script verifier, reject double spends, and
accumulate value_in; returns the updated (value_in, total_sigops) or none. -/
def connectInput (verify : Script → Transaction → Nat → Activations → Bool)
    (v : ChainView) (height : Nat) (acts : Activations)
    (indexInParent : Nat) (tx : Transaction) (inputIndex : Nat)
    (valueIn totalSigops : Nat) : Option (Nat × Nat) :=
  let input := tx.inputs.getD inputIndex default
  let prevOut := input.previousOutput
  match fetchTransaction v prevOut.hash with
  | none => none
  | some (prevTx, prevHeight) =>
    let prevTxOut := prevTx.outputs.getD prevOut.index default
    match scriptHashSigopsCount prevTxOut.script input.script with
    | none => none
    | some extra =>
      let sigops := totalSigops + extra
      if maxBlockScriptSigOperations < sigops then none
      else if maxMoney < prevTxOut.value then none
      else if isCoinbase prevTx && decide (height - prevHeight < coinbaseMaturity) then none
      else if !verify prevTxOut.script tx inputIndex acts then none
      else if isOutputSpentFull v prevOut indexInParent inputIndex then none
      else if maxMoney < valueIn + prevTxOut.value then none
      else some (valueIn + prevTxOut.value, sigops)

/-- validate_block::validate_inputs loop body: the fuel counts the remaining
inputs from index i on, threading value_in and total_sigops; the loop consults
no stopped callback. -/
def validateInputsFrom (verify : Script → Transaction → Nat → Activations → Bool)
    (v : ChainView) (height : Nat) (acts : Activations)
    (indexInParent : Nat) (tx : Transaction) :
    Nat → Nat → Nat → Nat → Option (Nat × Nat)
  | 0, _, valueIn, totalSigops => some (valueIn, totalSigops)
  | fuel + 1, i, valueIn, totalSigops =>
    match connectInput verify v height acts indexInParent tx i valueIn totalSigops with
    | none => none
    | some (valueIn2, sigops2) =>
      validateInputsFrom verify v height acts indexInParent tx fuel (i + 1) valueIn2 sigops2

/-- validate_block::validate_inputs: all inputs connect, value_in from zero. -/
def validateInputs (verify : Script → Transaction → Nat → Activations → Bool)
    (v : ChainView) (height : Nat) (acts : Activations)
    (indexInParent : Nat) (tx : Transaction) (totalSigops : Nat) : Option (Nat × Nat) :=
  validateInputsFrom verify v height acts indexInParent tx tx.inputs.length 0 0 totalSigops

/-- The bip30 duplicate loop of connect_block: the check precedes the stopped
consultation inside each iteration. -/
def bip30Loop (stopped : Nat → Bool) (v : ChainView) :
    Nat → List Transaction → Option Err × Nat
  | k, [] => (none, k)
  | k, tx :: rest =>
    if isSpentDuplicate v tx then (some .duplicateOrSpent, k)
    else if stopped k then (some .serviceStopped, k + 1)
    else bip30Loop stopped v (k + 1) rest

/-- The main transaction loop of connect_block: legacy sigop accumulation and
bound, a stopped consultation, coinbase skip, another consultation, input
validation, a third consultation, and fee tallying; returns the outcome, the
next consultation counter, and the accumulated fees. -/
def connectLoop (stopped : Nat → Bool)
    (verify : Script → Transaction → Nat → Activations → Bool)
    (v : ChainView) (height : Nat) (acts : Activations) :
    Nat → Nat → Nat → Nat → List Transaction → Option Err × Nat × Nat
  | k, _, fees, _, [] => (none, k, fees)
  | k, txIdx, fees, sigops, tx :: rest =>
    let sigops2 := sigops + legacySigopsCountTx tx
    if maxBlockScriptSigOperations < sigops2 then (some .tooManySigs, k, fees)
    else if stopped k then (some .serviceStopped, k + 1, fees)
    else if isCoinbase tx then
      connectLoop stopped verify v height acts (k + 1) (txIdx + 1) fees sigops2 rest
    else if stopped (k + 1) then (some .serviceStopped, k + 2, fees)
    else match validateInputs verify v height acts txIdx tx sigops2 with
    | none => (some .validateInputsFailed, k + 2, fees)
    | some (valueIn, sigops3) =>
      if stopped (k + 2) then (some .serviceStopped, k + 3, fees)
      else match tallyFees tx valueIn fees with
      | none => (some .feesOutOfRange, k + 3, fees)
      | some fees2 =>
        connectLoop stopped verify v height acts (k + 3) (txIdx + 1) fees2 sigops3 rest

/-- validate_block::connect_block. -/
def connectBlock (stopped : Nat → Bool)
    (verify : Script → Transaction → Nat → Activations → Bool)
    (v : ChainView) (st : ValidatorState) : Option Err :=
  let txs := st.block.transactions
  let version := st.block.header.version
  let bip30Result :=
    if isActive st.activations version .bip30 then bip30Loop stopped v 0 txs
    else (none, 0)
  match bip30Result with
  | (some e, _) => some e
  | (none, k0) =>
    match connectLoop stopped verify v st.height st.activations k0 0 0 0 txs with
    | (some e, _, _) => some e
    | (none, k1, fees) =>
      if stopped k1 then some .serviceStopped
      else if blockValue st.height + fees < totalOutputValue (txs.headD default) then
        some .coinbaseTooLarge
      else none

/-! ## Locator block fetch (src/unnamed/part_004) -/

/-- blockchain_impl::fetch_locator_blocks main loop, exactly as written: for
each height from start+1 below stop, look the block up; when the lookup result
is INVALID the code pushes the hash of that invalid result header (undefined
behaviour, modelled as the hash of a default header) and breaks; when it is
valid the code pushes nothing and continues. -/
def fetchLocatorLoop (get : Nat → Option BlockHeader) : Nat → Nat → List Nat
  | 0, _ => []
  | count + 1, index =>
    match get index with
    | some _ => fetchLocatorLoop get count (index + 1)
    | none => [hashBlockHeader default]

/-- blockchain_impl::fetch_locator_blocks hash list for resolved start and
stop heights. -/
def fetchLocatorBlocks (get : Nat → Option BlockHeader) (start stop : Nat) : List Nat :=
  fetchLocatorLoop get (stop - (start + 1)) (start + 1)

/-- Modelled from the spec: the intended locator loop (spec section 9, open
question b) pushes the header hash of each block while the lookup result is
valid and stops at the first invalid height. -/
def fetchLocatorLoopIntended (get : Nat → Option BlockHeader) : Nat → Nat → List Nat
  | 0, _ => []
  | count + 1, index =>
    match get index with
    | some h => hashBlockHeader h :: fetchLocatorLoopIntended get count (index + 1)
    | none => []

/-- The intended fetch_locator_blocks hash list. -/
def fetchLocatorBlocksIntended (get : Nat → Option BlockHeader) (start stop : Nat) : List Nat :=
  fetchLocatorLoopIntended get (stop - (start + 1)) (start + 1)

/-! ## Declarative restatement of Phase A (spec section 4.5) -/

/-- The nine ordered checks of Phase A as the spec words them: the first
violated check names the error, success otherwise.  Distinctness is stated as
Nodup of the transaction hashes and the coinbase exclusion as a quantifier
over the tail. -/
def firstViolatedCheck (now : Nat) (b : Block) : Option Err :=
  if b.transactions.isEmpty ∨ maxBlockSize < b.transactions.length ∨
      maxBlockSize < blockRawSize b then
    some .sizeLimits
  else if !isValidProofOfWork (hashBlockHeader b.header) b.header.bits then some .proofOfWork
  else if !isValidTimeStamp now b.header.timestamp then some .futuristicTimestamp
  else if !isCoinbase (b.transactions.headD default) then some .firstNotCoinbase
  else if b.transactions.tail.any isCoinbase then some .extraCoinbases
  else match b.transactions.findSome? checkTransaction with
  | some e => some e
  | none =>
    if ¬ (b.transactions.map hashTransaction).Nodup then some .duplicate
    else if maxBlockScriptSigOperations < legacySigopsCountTxs b.transactions then
      some .tooManySigs
    else if b.header.merkle ≠ generateMerkleRoot b.transactions then some .merkleMismatch
    else none

/-! ## Concrete fixtures used by counterexamples and witnesses -/

/-- A coinbase at height 50 recorded in the persistent transaction index. -/
def prevCoinbaseTx : Transaction := ⟨1, [⟨⟨0, maxUint32⟩, [], 0⟩], [⟨50, []⟩], 0⟩

/-- Chain view holding only that coinbase, fork index 100, empty orphans. -/
def immatureView : ChainView :=
  ⟨[], [(hashTransaction prevCoinbaseTx, (prevCoinbaseTx, 50))], 100, [], 0⟩

/-- A transaction spending the coinbase output. -/
def immatureSpendTx : Transaction :=
  ⟨1, [⟨⟨hashTransaction prevCoinbaseTx, 0⟩, [], 0⟩], [⟨1, []⟩], 0⟩

/-- The coinbase of the candidate block. -/
def immatureCoinbaseTx : Transaction :=
  ⟨1, [⟨⟨0, maxUint32⟩, [⟨opSpecial, [1, 1]⟩], 0⟩], [⟨10, []⟩], 0⟩

/-- Candidate at height 60: spending a height-50 coinbase is 50 short of
maturity. -/
def immatureState : ValidatorState :=
  ⟨60, ⟨⟨2, 0, 0, 0, 0, 0⟩, [immatureCoinbaseTx, immatureSpendTx]⟩, [], 1,
    ⟨false, false, false, false, false⟩⟩

/-- Header source for the bip34 scenario: every preceding header has version 2,
timestamp 1000 and max_work_bits. -/
def bip34Fetch : Nat → BlockHeader := fun _ => ⟨2, 0, 0, 1000, maxWorkBits, 0⟩

/-- A version-2 coinbase whose script pushes 5 instead of the height 1. -/
def bip34CoinbaseTx : Transaction :=
  ⟨1, [⟨⟨0, maxUint32⟩, [⟨opSpecial, [5]⟩], 0⟩], [⟨0, []⟩], 0⟩

/-- Candidate at height 1, version 2, bip34 activated, all other accept_block
checks passing, with the wrong coinbase height push. -/
def bip34State : ValidatorState :=
  ⟨1, ⟨⟨2, 0, 0, 1001, maxWorkBits, 0⟩, [bip34CoinbaseTx]⟩, [], 1,
    ⟨false, false, true, false, false⟩⟩

/-- Header source for the retarget scenario: the interval took half the
target timespan (604800 seconds). -/
def retargetFetch : Nat → BlockHeader := fun n =>
  if n = 2015 then ⟨1, 0, 0, 1604800, maxWorkBits, 0⟩ else ⟨1, 0, 0, 1000000, maxWorkBits, 0⟩

/-- A one-transaction block with valid size and proof of work (bits
max_work_bits). -/
def stopBlock : Block :=
  ⟨⟨1, 0, 0, 0, maxWorkBits, 0⟩, [⟨1, [⟨⟨0, maxUint32⟩, [⟨opSpecial, [1, 1]⟩], 0⟩], [⟨0, []⟩], 0⟩]⟩

/-- A one-transaction block whose bits decode to a zero target, failing the
proof-of-work check. -/
def powFailBlock : Block :=
  ⟨⟨1, 0, 0, 0, 0, 0⟩, [⟨1, [⟨⟨0, maxUint32⟩, [⟨opSpecial, [1, 1]⟩], 0⟩], [⟨0, []⟩], 0⟩]⟩

/-! # Theorems -/

/-! ## Shared helper lemmas -/

theorem bucketHead_setBucket (db : Htdb) (b : Nat) (h : Option Nat) :
    bucketHead (setBucket db b h) b = h := by
  unfold bucketHead setBucket
  rw [List.find?_cons_of_pos _ (by simp)]

theorem numberBuckets_setBucket (db : Htdb) (b : Nat) (h : Option Nat) :
    (setBucket db b h).numberBuckets = db.numberBuckets := rfl

theorem numberBuckets_htdbStore (db : Htdb) (k : Nat) (i : InPoint) :
    (htdbStore db k i).numberBuckets = db.numberBuckets := rfl

theorem records_htdbStore (db : Htdb) (k : Nat) (i : InPoint) :
    (htdbStore db k i).records = (db.nextIndex, ⟨k, bucketHead db (bucketFor db k), i⟩)
      :: db.records := rfl

theorem recordAt_head (db : Htdb) (n : Nat) (r : HtdbRecord) (rest : List (Nat × HtdbRecord))
    (hrec : db.records = (n, r) :: rest) : recordAt db n = some r := by
  unfold recordAt
  rw [hrec, List.find?_cons_of_pos _ (by simp)]
  rfl

theorem recordAt_lt (db : Htdb) (n idx : Nat) (r : HtdbRecord) (rest : List (Nat × HtdbRecord))
    (hrec : db.records = (n, r) :: rest) (hidx : idx < n) :
    recordAt db idx = (rest.find? (fun e => decide (e.1 = idx))).map (fun e => e.2) := by
  unfold recordAt
  rw [hrec, List.find?_cons_of_neg _ (by simp; omega)]

/-- Stored record retrieval: after a store the new bucket head is the fresh
record, so the get walk answers immediately. -/
theorem htdbGet_store (db : Htdb) (k : Nat) (i : InPoint) :
    htdbGet (htdbStore db k i) k = some i := by
  unfold htdbGet
  have hb : bucketFor (htdbStore db k i) k = bucketFor db k := by
    unfold bucketFor
    rw [numberBuckets_htdbStore]
  have hh : bucketHead (htdbStore db k i) (bucketFor db k) = some db.nextIndex :=
    bucketHead_setBucket _ _ _
  rw [hb, hh, records_htdbStore]
  have hr := recordAt_head (htdbStore db k i) db.nextIndex
    ⟨k, bucketHead db (bucketFor db k), i⟩ db.records (records_htdbStore db k i)
  simp [getChain, hr]

/-- The unlink after a store removes exactly the fresh head record and
restores the previous bucket head. -/
theorem htdbUnlink_store (db : Htdb) (k : Nat) (i : InPoint) :
    htdbUnlink (htdbStore db k i) k =
      (setBucket (htdbStore db k i) (bucketFor db k) (bucketHead db (bucketFor db k)), true) := by
  unfold htdbUnlink
  have hb : bucketFor (htdbStore db k i) k = bucketFor db k := by
    unfold bucketFor
    rw [numberBuckets_htdbStore]
  have hh : bucketHead (htdbStore db k i) (bucketFor db k) = some db.nextIndex :=
    bucketHead_setBucket _ _ _
  have hr := recordAt_head (htdbStore db k i) db.nextIndex
    ⟨k, bucketHead db (bucketFor db k), i⟩ db.records (records_htdbStore db k i)
  simp only [hb, hh, records_htdbStore]
  simp [unlinkChain, hr]

/-- A get walk that starts below a fresh index and only ever meets records
without the key and with next pointers below the fresh index returns none. -/
theorem getChain_none_of_bounded (db : Htdb) (n : Nat) (fresh : HtdbRecord) (k : Nat)
    (base : List (Nat × HtdbRecord)) (hrecords : db.records = (n, fresh) :: base)
    (hkey : ∀ e ∈ base, e.2.key ≠ k)
    (hnext : ∀ e ∈ base, ∀ j, e.2.next = some j → j < n) :
    ∀ fuel start, (∀ j, start = some j → j < n) → getChain db fuel start k = none := by
  intro fuel
  induction fuel with
  | zero => intro start _; cases start <;> rfl
  | succ m ih =>
    intro start hstart
    cases start with
    | none => rfl
    | some idx =>
      have hidx : idx < n := hstart idx rfl
      have hwalk := recordAt_lt db n idx fresh base hrecords hidx
      cases hfind : base.find? (fun e => decide (e.1 = idx)) with
      | none =>
        have hnone : recordAt db idx = none := by rw [hwalk, hfind]; rfl
        simp [getChain, hnone]
      | some e =>
        have hsome : recordAt db idx = some e.2 := by rw [hwalk, hfind]; rfl
        have hmem : e ∈ base := List.mem_of_find?_eq_some hfind
        have hne : e.2.key ≠ k := hkey e hmem
        simp only [getChain, hsome]
        rw [if_neg hne]
        exact ih e.2.next (fun j hj => hnext e hmem j hj)

/-- A bucket head bounded by the bucket bound hypothesis. -/
theorem bucketHead_bound (db : Htdb) (b N : Nat)
    (hbuckets : ∀ e ∈ db.buckets, ∀ j, e.2 = some j → j < N) :
    ∀ j, bucketHead db b = some j → j < N := by
  intro j hj
  unfold bucketHead at hj
  cases hfind : db.buckets.find? (fun e => decide (e.1 = b)) with
  | none => rw [hfind] at hj; cases hj
  | some e =>
    rw [hfind] at hj
    exact hbuckets e (List.mem_of_find?_eq_some hfind) j hj

/-! ## C1 -/

/-- C1: on the committed chain the one-parameter is_output_spent of
src/implementation/validate_block_impl.cpp answers true exactly when the
spends index holds a record for the outpoint and the recorded spending
transaction sits at a height at most fork_index; the variant in
src/validate_block_impl.cpp instead returns the negated UTXO membership test,
so it answers true on an outpoint that was never spent at all, where the claim
requires false. -/
theorem is_output_spent_committed_characterization :
    (∀ (v : ChainView) (o : OutPoint),
      isOutputSpentCommitted v o = true ↔
        ∃ ip, spendsGet v o = some ip ∧
          ∃ e, txIndexGet v ip.hash = some e ∧ e.2 ≤ v.forkIndex) ∧
    isOutputSpentFer [] ⟨0, 0⟩ = true ∧
    isOutputSpentCommitted ⟨[], [], 0, [], 0⟩ ⟨0, 0⟩ = false := by
  refine ⟨?_, rfl, rfl⟩
  intro v o
  unfold isOutputSpentCommitted transactionExists txAfterFork
  cases hs : spendsGet v o with
  | none => simp
  | some ip =>
    cases ht : txIndexGet v ip.hash with
    | none => simp [ht]
    | some e =>
      obtain ⟨tx, hgt⟩ := e
      simp [ht, Nat.not_lt]
      constructor
      · intro hle
        exact ⟨tx, hgt, ⟨rfl, rfl⟩, hle⟩
      · rintro ⟨a, b, ⟨h1, h2⟩, hle⟩
        omega

/-! ## C2 -/

/-- C2 counterexample: the claim fails on shadowing; two stores to the same
outpoint followed by one remove leave the older record visible, so get is not
absent after remove. -/
theorem utxo_remove_shadowing_cex :
    utxoGet (utxoRemove (utxoStore (utxoStore utxoCreate ⟨1, 0⟩ ⟨2, 7⟩) ⟨1, 0⟩ ⟨3, 1⟩)
      ⟨1, 0⟩) ⟨1, 0⟩ = some ⟨2, 7⟩ := by
  decide

/-- C2 (amended): after store(o, i) the get of o decodes to i
unconditionally; and when the database held no record for the key of o and its
indices are bounded by the allocator counter, the remove following the store
leaves get(o) absent. -/
theorem utxo_store_get_remove (db : Htdb) (o : OutPoint) (i : InPoint)
    (hkey : ∀ e ∈ db.records, e.2.key ≠ outputToHash o)
    (hbuckets : ∀ e ∈ db.buckets, ∀ j, e.2 = some j → j < db.nextIndex)
    (hnext : ∀ e ∈ db.records, ∀ j, e.2.next = some j → j < db.nextIndex) :
    utxoGet (utxoStore db o i) o = some i ∧
      utxoGet (utxoRemove (utxoStore db o i) o) o = none := by
  constructor
  · exact htdbGet_store db (outputToHash o) i
  · unfold utxoGet utxoRemove utxoStore
    rw [htdbUnlink_store db (outputToHash o) i]
    unfold htdbGet
    set k := outputToHash o with hk
    set db1 := htdbStore db k i with hdb1
    set db3 := setBucket db1 (bucketFor db k) (bucketHead db (bucketFor db k)) with hdb3
    have hnum3 : db3.numberBuckets = db.numberBuckets := by
      rw [hdb3, numberBuckets_setBucket, hdb1, numberBuckets_htdbStore]
    have hbf : bucketFor db3 k = bucketFor db k := by
      unfold bucketFor
      rw [hnum3]
    have hhead : bucketHead db3 (bucketFor db k) = bucketHead db (bucketFor db k) := by
      rw [hdb3]
      exact bucketHead_setBucket _ _ _
    have hrec3 : db3.records = (db.nextIndex, ⟨k, bucketHead db (bucketFor db k), i⟩)
        :: db.records := by
      rw [hdb3]
      show db1.records = _
      rw [hdb1]
      exact records_htdbStore db k i
    rw [hbf, hhead]
    exact getChain_none_of_bounded db3 db.nextIndex _ k db.records hrec3 hkey hnext _ _
      (bucketHead_bound db (bucketFor db k) db.nextIndex hbuckets)

/-- C2 witness: the amended statement applied to the freshly created database
and a concrete outpoint and inpoint. -/
theorem utxo_store_get_remove_witness :
    (∀ e ∈ utxoCreate.records, e.2.key ≠ outputToHash ⟨1, 2⟩) ∧
    (∀ e ∈ utxoCreate.buckets, ∀ j, e.2 = some j → j < utxoCreate.nextIndex) ∧
    (∀ e ∈ utxoCreate.records, ∀ j, e.2.next = some j → j < utxoCreate.nextIndex) ∧
    (utxoGet (utxoStore utxoCreate ⟨1, 2⟩ ⟨3, 4⟩) ⟨1, 2⟩ = some ⟨3, 4⟩ ∧
      utxoGet (utxoRemove (utxoStore utxoCreate ⟨1, 2⟩ ⟨3, 4⟩) ⟨1, 2⟩) ⟨1, 2⟩ = none) :=
  ⟨by simp [utxoCreate], by simp [utxoCreate], by simp [utxoCreate],
    utxo_store_get_remove utxoCreate ⟨1, 2⟩ ⟨3, 4⟩ (by simp [utxoCreate])
      (by simp [utxoCreate]) (by simp [utxoCreate])⟩

/-! ## C9 -/

/-- C9: on a chain whose heights one and two are both valid, the
fetch_locator_blocks loop as written returns the empty hash list, because it
pushes only when a lookup result is invalid; the intended loop from the spec
returns both header hashes. -/
theorem fetch_locator_blocks_inverted :
    fetchLocatorBlocks (fun n => if n < 5 then some ⟨1, 0, 0, n, 0, 0⟩ else none) 0 3 = [] ∧
    (fetchLocatorBlocksIntended
      (fun n => if n < 5 then some ⟨1, 0, 0, n, 0, 0⟩ else none) 0 3).length = 2 := by
  constructor
  · rfl
  · rfl

/-! ## C10 -/

/-- C10: the preceding version sample has length min(sample, height), every
fetched version is clamped to 255,
and consequently each preceding header with a version above 255 contributes to
each of the three threshold counts used by initialize_context. -/
theorem preceding_versions_clamp (fetch : Nat → BlockHeader) (height : Nat) :
    (precedingBlockVersions fetch height sampleSize).length = min sampleSize height ∧
    (List.range (min sampleSize height)).countP
        (fun idx => decide (255 < (fetch (height - idx - 1)).version)) ≤
      versionCountGe (precedingBlockVersions fetch height sampleSize) 2 ∧
    (List.range (min sampleSize height)).countP
        (fun idx => decide (255 < (fetch (height - idx - 1)).version)) ≤
      versionCountGe (precedingBlockVersions fetch height sampleSize) 3 ∧
    (List.range (min sampleSize height)).countP
        (fun idx => decide (255 < (fetch (height - idx - 1)).version)) ≤
      versionCountGe (precedingBlockVersions fetch height sampleSize) 4 := by
  refine ⟨by simp [precedingBlockVersions], ?_, ?_, ?_⟩
  all_goals
    unfold versionCountGe precedingBlockVersions
    rw [List.countP_map]
    apply List.countP_mono_left
    intro idx _ hgt
    simp only [Function.comp]
    simp at hgt ⊢
    omega

/-! ## Loop lemmas for the never-stopping callback -/

theorem extraCoinbasesLoop_noStop (txs : List Transaction) : ∀ k,
    ∃ k2, extraCoinbasesLoop noStop k txs =
      ((if txs.any isCoinbase then some Err.extraCoinbases else none), k2) := by
  induction txs with
  | nil => intro k; exact ⟨k, by simp [extraCoinbasesLoop]⟩
  | cons tx rest ih =>
    intro k
    by_cases h : isCoinbase tx
    · exact ⟨k + 1, by simp [extraCoinbasesLoop, noStop, h]⟩
    · obtain ⟨k2, hk2⟩ := ih (k + 1)
      exact ⟨k2, by simp [extraCoinbasesLoop, noStop, h, hk2]⟩

theorem checkTxLoop_noStop (txs : List Transaction) : ∀ k,
    ∃ k2, checkTxLoop noStop k txs = (txs.findSome? checkTransaction, k2) := by
  induction txs with
  | nil => intro k; exact ⟨k, by simp [checkTxLoop]⟩
  | cons tx rest ih =>
    intro k
    cases hc : checkTransaction tx with
    | some e => exact ⟨k + 1, by simp [checkTxLoop, noStop, hc, List.findSome?_cons]⟩
    | none =>
      obtain ⟨k2, hk2⟩ := ih (k + 1)
      exact ⟨k2, by simp [checkTxLoop, noStop, hc, hk2, List.findSome?_cons]⟩

theorem finalLoop_noStop (txs : List Transaction) (height ts : Nat) : ∀ k,
    ∃ k2, finalLoop noStop height ts k txs =
      ((if txs.all (fun tx => isFinal tx height ts) then none
        else some Err.nonFinalTransaction), k2) := by
  induction txs with
  | nil => intro k; exact ⟨k, by simp [finalLoop]⟩
  | cons tx rest ih =>
    intro k
    by_cases h : isFinal tx height ts
    · obtain ⟨k2, hk2⟩ := ih (k + 1)
      exact ⟨k2, by simp [finalLoop, noStop, h, hk2]⟩
    · refine ⟨k, ?_⟩
      have hb : isFinal tx height ts = false := by
        cases hx : isFinal tx height ts
        · rfl
        · exact absurd hx h
      simp [finalLoop, noStop, hb]

/-! ## Distinctness of the sorted transaction hash list -/

theorem hasAdjacentDup_eq_false_iff (l : List Nat) (hs : List.Sorted (· ≤ ·) l) :
    hasAdjacentDup l = false ↔ l.Nodup := by
  induction l with
  | nil => simp [hasAdjacentDup]
  | cons a t ih =>
    cases t with
    | nil => simp [hasAdjacentDup]
    | cons b t2 =>
      rw [List.sorted_cons] at hs
      have hab : a ≤ b := hs.1 b (by simp)
      have iht := ih hs.2
      constructor
      · intro h
        simp only [hasAdjacentDup, Bool.or_eq_false_iff, decide_eq_false_iff_not] at h
        have hnd := iht.mp h.2
        refine List.nodup_cons.mpr ⟨?_, hnd⟩
        intro hmem
        rcases List.mem_cons.mp hmem with h1 | h1
        · exact h.1 h1
        · have hba : b ≤ a := (List.sorted_cons.mp hs.2).1 a h1
          exact h.1 (le_antisymm hab hba)
      · intro hnd
        rw [List.nodup_cons] at hnd
        simp only [hasAdjacentDup, Bool.or_eq_false_iff, decide_eq_false_iff_not]
        exact ⟨fun heq => hnd.1 (by rw [heq]; exact List.mem_cons_self b t2),
          iht.mpr hnd.2⟩

theorem isDistinctTxSet_iff (txs : List Transaction) :
    isDistinctTxSet txs = true ↔ (txs.map hashTransaction).Nodup := by
  unfold isDistinctTxSet
  rw [Bool.not_eq_eq_eq_not]
  show hasAdjacentDup _ = false ↔ _
  rw [hasAdjacentDup_eq_false_iff _ (List.sorted_insertionSort _ _)]
  exact (List.perm_insertionSort _ _).nodup_iff

/-! ## C4 -/

theorem checkBlock_noStop_eq (now : Nat) (b : Block) :
    checkBlock noStop now b = firstViolatedCheck now b := by
  obtain ⟨kA, hA⟩ := extraCoinbasesLoop_noStop b.transactions.tail 2
  unfold checkBlock firstViolatedCheck
  simp only [noStop, Bool.false_eq_true, if_false]
  rw [hA]
  by_cases h1 : (b.transactions.isEmpty ∨ maxBlockSize < b.transactions.length ∨
      maxBlockSize < blockRawSize b)
  · simp only [if_pos h1]
  · simp only [if_neg h1]
    by_cases h2 : ((!isValidProofOfWork (hashBlockHeader b.header) b.header.bits) = true)
    · simp only [if_pos h2]
    · simp only [if_neg h2]
      by_cases h3 : ((!isValidTimeStamp now b.header.timestamp) = true)
      · simp only [if_pos h3]
      · simp only [if_neg h3]
        by_cases h4 : ((!isCoinbase (b.transactions.headD default)) = true)
        · simp only [if_pos h4]
        · simp only [if_neg h4]
          by_cases h5 : (b.transactions.tail.any isCoinbase = true)
          · simp only [if_pos h5]
          · simp only [if_neg h5]
            obtain ⟨kB, hB⟩ := checkTxLoop_noStop b.transactions kA
            rw [hB]
            cases hfs : b.transactions.findSome? checkTransaction with
            | some e => rfl
            | none =>
              by_cases h6 : (b.transactions.map hashTransaction).Nodup
              · have hd : isDistinctTxSet b.transactions = true :=
                  (isDistinctTxSet_iff _).mpr h6
                have hdp : ¬((!isDistinctTxSet b.transactions) = true) := by simp [hd]
                rw [if_neg hdp, if_neg (not_not_intro h6)]
              · have hd : isDistinctTxSet b.transactions = false := by
                  cases hx : isDistinctTxSet b.transactions
                  · rfl
                  · exact absurd ((isDistinctTxSet_iff _).mp hx) h6
                have hdp : ((!isDistinctTxSet b.transactions) = true) := by simp [hd]
                rw [if_pos hdp, if_pos h6]

/-- C4: with cancellation never observed, check_block performs the nine checks
in order and returns the error kind of the first violated one — size limits,
proof of work, futuristic timestamp, first-not-coinbase, extra coinbases, the
stateless per-transaction check, duplicate hashes, the block sigop bound, and
the merkle root — succeeding when none is violated. -/
theorem check_block_first_violation (now : Nat) (b : Block) :
    checkBlock noStop now b = firstViolatedCheck now b :=
  checkBlock_noStop_eq now b

/-! ## C3 -/

theorem isActive_bip34 (acts : Activations) (ver : Nat) :
    isActive acts ver .bip34 = (acts.bip34 && decide (2 ≤ ver)) := by
  unfold isActive flagEnabled
  cases acts.bip34 <;> simp

theorem isActive_bip30 (acts : Activations) (ver : Nat) :
    isActive acts ver .bip30 = false := by
  unfold isActive flagEnabled
  cases acts.bip30 <;> simp

/-- C3 counterexample: a block of version 2 with bip34 activated and a wrong
coinbase height push fails accept_block with CoinbaseHeightMismatch, although
the claim says the check is skipped and cannot fail below version 3; the
version threshold in is_active for bip34 is version_2. -/
theorem accept_block_bip34_version2_cex :
    acceptBlock noStop bip34Fetch bip34State = some Err.coinbaseHeightMismatch ∧
    bip34State.block.header.version < 3 := by
  constructor
  · decide
  · decide

/-- C3 (amended): the coinbase-height rule fires exactly under bip34 activation
together with header version at least 2 (version_2, not 3): when bip34 is
inactive or the version is below 2 the check cannot fail, and when every
earlier accept_block check passes, bip34 is active, the version is at least 2
and the height push is wrong, the block fails with CoinbaseHeightMismatch. -/
theorem accept_block_bip34_version_threshold :
    (∀ (fetch : Nat → BlockHeader) (st : ValidatorState),
      ¬(st.activations.bip34 = true ∧ 2 ≤ st.block.header.version) →
      acceptBlock noStop fetch st ≠ some Err.coinbaseHeightMismatch) ∧
    (∀ (fetch : Nat → BlockHeader) (st : ValidatorState),
      st.block.header.bits = workRequired fetch st.height →
      medianTimePast fetch st.height < st.block.header.timestamp →
      (∀ tx ∈ st.block.transactions,
        isFinal tx st.height st.block.header.timestamp = true) →
      checkpointValidate (hashBlockHeader st.block.header) st.height st.checkpoints = true →
      st.minimumVersion ≤ st.block.header.version →
      st.activations.bip34 = true →
      2 ≤ st.block.header.version →
      isValidCoinbaseHeight st.height st.block = false →
      acceptBlock noStop fetch st = some Err.coinbaseHeightMismatch) := by
  constructor
  · intro fetch st h hcontra
    obtain ⟨kF, hF⟩ :=
      finalLoop_noStop st.block.transactions st.height st.block.header.timestamp 2
    unfold acceptBlock at hcontra
    simp only [noStop, Bool.false_eq_true, if_false] at hcontra
    rw [hF] at hcontra
    by_cases hall : (st.block.transactions.all
        (fun tx => isFinal tx st.height st.block.header.timestamp) = true)
    · simp only [if_pos hall] at hcontra
      split_ifs at hcontra with hc1 hc2 hc3 hc4 hc5
      · exact absurd hcontra (by simp)
      · exact absurd hcontra (by simp)
      · exact absurd hcontra (by simp)
      · exact absurd hcontra (by simp)
      · simp only [isActive_bip34, Bool.and_eq_true, decide_eq_true_eq] at hc5
        exact h hc5.1
    · simp only [if_neg hall] at hcontra
      split_ifs at hcontra <;> simp_all
  · intro fetch st h1 h2 h3 h4 h5 h6 h7 h8
    obtain ⟨kF, hF⟩ :=
      finalLoop_noStop st.block.transactions st.height st.block.header.timestamp 2
    unfold acceptBlock
    simp only [noStop, Bool.false_eq_true, if_false]
    rw [hF]
    have hall : st.block.transactions.all
        (fun tx => isFinal tx st.height st.block.header.timestamp) = true := by
      rw [List.all_eq_true]
      exact h3
    rw [if_neg (show ¬(st.block.header.bits ≠ workRequired fetch st.height)
      from fun hne => hne h1)]
    rw [if_neg (not_le.mpr h2)]
    simp only [if_pos hall]
    have hcp : ¬((!checkpointValidate (hashBlockHeader st.block.header) st.height
        st.checkpoints) = true) := by simp [h4]
    rw [if_neg hcp]
    have hver : ¬((!decide (st.minimumVersion ≤ st.block.header.version)) = true) := by
      simp [h5]
    rw [if_neg hver]
    have hcond : (isActive st.activations st.block.header.version .bip34 &&
        !isValidCoinbaseHeight st.height st.block) = true := by
      simp [isActive_bip34, h6, h7, h8]
    rw [if_pos hcond]

/-- C3 witness: the amended positive branch applied at the concrete version-2
bip34 fixture. -/
theorem accept_block_bip34_version_threshold_witness :
    bip34State.block.header.bits = workRequired bip34Fetch bip34State.height ∧
    medianTimePast bip34Fetch bip34State.height < bip34State.block.header.timestamp ∧
    (∀ tx ∈ bip34State.block.transactions,
      isFinal tx bip34State.height bip34State.block.header.timestamp = true) ∧
    checkpointValidate (hashBlockHeader bip34State.block.header) bip34State.height
      bip34State.checkpoints = true ∧
    bip34State.minimumVersion ≤ bip34State.block.header.version ∧
    bip34State.activations.bip34 = true ∧
    2 ≤ bip34State.block.header.version ∧
    isValidCoinbaseHeight bip34State.height bip34State.block = false ∧
    acceptBlock noStop bip34Fetch bip34State = some Err.coinbaseHeightMismatch :=
  ⟨by decide, by decide, by decide, by decide, by decide, by decide, by decide, by decide,
    accept_block_bip34_version_threshold.2 bip34Fetch bip34State (by decide) (by decide)
      (by decide) (by decide) (by decide) (by decide) (by decide) (by decide)⟩

/-! ## C5 -/

theorem sub32_of_le (a b : Nat) (hb : b ≤ a) (ha : a < 2 ^ 32) : sub32 a b = a - b := by
  unfold sub32
  have h32 : (2 : Nat) ^ 32 = 4294967296 := by norm_num
  rw [h32] at ha ⊢
  omega

theorem rangeConstrain_eq (x lo hi : Nat) (h : lo ≤ hi) :
    rangeConstrain x lo hi = max lo (min x hi) := by
  unfold rangeConstrain
  split_ifs <;> omega

/-- C5: at a retarget boundary, with timestamps in range, work_required is the
compact encoding of min(max_target, previous_target times the actual interval
timespan clamped to [target_timespan/4, target_timespan*4], divided by
target_timespan), where the actual timespan is the difference of the
timestamps at height-1 and height-2016. -/
theorem work_required_retarget (fetch : Nat → BlockHeader) (height : Nat)
    (h0 : height ≠ 0) (hmod : height % readjustmentInterval = 0)
    (hts : (fetch (height - readjustmentInterval)).timestamp ≤
      (fetch (height - 1)).timestamp)
    (hlt : (fetch (height - 1)).timestamp < 2 ^ 32)
    (hov : setCompactValue (fetch (height - 1)).bits *
        max (targetTimespan / 4) (min ((fetch (height - 1)).timestamp -
          (fetch (height - readjustmentInterval)).timestamp) (targetTimespan * 4)) <
        2 ^ 256) :
    workRequired fetch height =
      compactEncode (min maxTarget (setCompactValue (fetch (height - 1)).bits *
        max (targetTimespan / 4) (min ((fetch (height - 1)).timestamp -
          (fetch (height - readjustmentInterval)).timestamp) (targetTimespan * 4)) /
        targetTimespan)) := by
  unfold workRequired workRequiredScaled actualTimespan
  rw [if_neg h0, if_neg (show ¬(height % readjustmentInterval ≠ 0) from fun hc => hc hmod)]
  rw [sub32_of_le _ _ hts hlt]
  rw [rangeConstrain_eq _ _ _ (by decide)]
  rw [Nat.mod_eq_of_lt hov]
  congr 1
  split_ifs with hcmp <;> omega

/-- C5 witness: the retarget at height 2016 with an actual timespan of half
the target timespan, halving the previous (maximal) target. -/
theorem work_required_retarget_witness :
    (2016 ≠ 0) ∧ (2016 % readjustmentInterval = 0) ∧
    ((retargetFetch (2016 - readjustmentInterval)).timestamp ≤
      (retargetFetch (2016 - 1)).timestamp) ∧
    ((retargetFetch (2016 - 1)).timestamp < 2 ^ 32) ∧
    (setCompactValue (retargetFetch (2016 - 1)).bits *
        max (targetTimespan / 4) (min ((retargetFetch (2016 - 1)).timestamp -
          (retargetFetch (2016 - readjustmentInterval)).timestamp) (targetTimespan * 4)) <
        2 ^ 256) ∧
    workRequired retargetFetch 2016 =
      compactEncode (min maxTarget (setCompactValue (retargetFetch (2016 - 1)).bits *
        max (targetTimespan / 4) (min ((retargetFetch (2016 - 1)).timestamp -
          (retargetFetch (2016 - readjustmentInterval)).timestamp) (targetTimespan * 4)) /
        targetTimespan)) :=
  ⟨by decide, by decide, by decide, by decide, by decide,
    work_required_retarget retargetFetch 2016 (by decide) (by decide) (by decide)
      (by decide) (by decide)⟩

/-! ## C6 -/

theorem ite_skip_eq_true (P Q : Prop) [Decidable P] [Decidable Q] :
    ((if P then false else decide Q) = true) ↔ (¬P ∧ Q) := by
  split_ifs with h <;> simp [h]

/-- C6: the full double-spend check answers true exactly when the outpoint is
spent on the committed chain, or some input of some transaction of an orphan
block at position at most orphan_index references it, the single position
(orphan_index, skip_tx, skip_input) excepted. -/
theorem is_output_spent_full_characterization (v : ChainView) (o : OutPoint)
    (skipTx skipInput : Nat) :
    isOutputSpentFull v o skipTx skipInput = true ↔
      (isOutputSpentCommitted v o = true ∨
        ∃ j, j ≤ v.orphanIndex ∧
          ∃ t, t < ((v.orphanChain.getD j default).transactions).length ∧
            ∃ i, i < (((v.orphanChain.getD j default).transactions).getD t
                default).inputs.length ∧
              ¬(j = v.orphanIndex ∧ t = skipTx ∧ i = skipInput) ∧
              ((((v.orphanChain.getD j default).transactions).getD t
                default).inputs.getD i default).previousOutput = o) := by
  unfold isOutputSpentFull orphanIsSpent
  simp only [Bool.or_eq_true, List.any_eq_true, List.mem_range, ite_skip_eq_true,
    Nat.lt_succ_iff]

/-! ## C7 -/

/-- An immature coinbase spend makes connect_input fail regardless of the
threaded value_in and total_sigops. -/
theorem connectInput_immature (verify : Script → Transaction → Nat → Activations → Bool)
    (v : ChainView) (height : Nat) (acts : Activations) (ip : Nat) (tx : Transaction)
    (k vi s : Nat) (ptx : Transaction) (p : Nat)
    (hfetch : fetchTransaction v ((tx.inputs.getD k default).previousOutput).hash =
      some (ptx, p))
    (hcb : isCoinbase ptx = true) (himm : height - p < coinbaseMaturity) :
    connectInput verify v height acts ip tx k vi s = none := by
  simp only [connectInput]
  rw [hfetch]
  split
  · rfl
  · rename_i prevTx prevHeight heq0
    injection heq0 with hpair
    injection hpair with hp1 hp2
    subst hp1
    subst hp2
    split
    · rfl
    · rename_i extra heq
      have hcond : (isCoinbase ptx && decide (height - p < coinbaseMaturity)) = true := by
        simp [hcb, himm]
      by_cases hA : maxBlockScriptSigOperations < s + extra
      · rw [if_pos hA]
      · rw [if_neg hA]
        by_cases hB : maxMoney <
            (ptx.outputs.getD (tx.inputs.getD k default).previousOutput.index default).value
        · rw [if_pos hB]
        · rw [if_neg hB, if_pos hcond]

/-- connect_input succeeding on a coinbase-funded input implies maturity. -/
theorem connectInput_mature_of_some
    (verify : Script → Transaction → Nat → Activations → Bool)
    (v : ChainView) (height : Nat) (acts : Activations) (ip : Nat) (tx : Transaction)
    (k vi s : Nat) (ptx : Transaction) (p : Nat) (r : Nat × Nat)
    (hfetch : fetchTransaction v ((tx.inputs.getD k default).previousOutput).hash =
      some (ptx, p))
    (hcb : isCoinbase ptx = true)
    (hres : connectInput verify v height acts ip tx k vi s = some r) :
    coinbaseMaturity ≤ height - p := by
  by_contra hlt
  rw [connectInput_immature verify v height acts ip tx k vi s ptx p hfetch hcb
    (by omega)] at hres
  cases hres

/-- If some reachable input index always fails, the whole input loop fails. -/
theorem validateInputsFrom_none (verify : Script → Transaction → Nat → Activations → Bool)
    (v : ChainView) (height : Nat) (acts : Activations) (ip : Nat) (tx : Transaction)
    (k : Nat)
    (hbad : ∀ vi s, connectInput verify v height acts ip tx k vi s = none) :
    ∀ fuel i vi s, i ≤ k → k < i + fuel →
      validateInputsFrom verify v height acts ip tx fuel i vi s = none := by
  intro fuel
  induction fuel with
  | zero => intro i vi s h1 h2; omega
  | succ m ih =>
    intro i vi s h1 h2
    by_cases hik : i = k
    · subst hik
      simp only [validateInputsFrom, hbad vi s]
    · cases hci : connectInput verify v height acts ip tx i vi s with
      | none => simp only [validateInputsFrom, hci]
      | some pr =>
        obtain ⟨v2, s2⟩ := pr
        simp only [validateInputsFrom, hci]
        exact ih (i + 1) v2 s2 (by omega) (by omega)

/-- C7: connect_input succeeds on an input funded by a coinbase at height p
only when height - p reaches coinbase_maturity (100); an input short of
maturity makes validate_inputs fail, and on the concrete immature fixture
connect_block fails with ValidateInputsFailed. -/
theorem connect_input_coinbase_maturity :
    (∀ (verify : Script → Transaction → Nat → Activations → Bool)
      (v : ChainView) (height : Nat) (acts : Activations) (ip : Nat) (tx : Transaction)
      (k vi s : Nat) (ptx : Transaction) (p : Nat) (r : Nat × Nat),
      fetchTransaction v ((tx.inputs.getD k default).previousOutput).hash = some (ptx, p) →
      isCoinbase ptx = true →
      connectInput verify v height acts ip tx k vi s = some r →
      coinbaseMaturity ≤ height - p) ∧
    (∀ (verify : Script → Transaction → Nat → Activations → Bool)
      (v : ChainView) (height : Nat) (acts : Activations) (ip : Nat) (tx : Transaction)
      (sigops k : Nat) (ptx : Transaction) (p : Nat),
      k < tx.inputs.length →
      fetchTransaction v ((tx.inputs.getD k default).previousOutput).hash = some (ptx, p) →
      isCoinbase ptx = true →
      height - p < coinbaseMaturity →
      validateInputs verify v height acts ip tx sigops = none) ∧
    connectBlock noStop (fun _ _ _ _ => true) immatureView immatureState =
      some Err.validateInputsFailed := by
  refine ⟨?_, ?_, ?_⟩
  · intro verify v height acts ip tx k vi s ptx p r hfetch hcb hres
    exact connectInput_mature_of_some verify v height acts ip tx k vi s ptx p r
      hfetch hcb hres
  · intro verify v height acts ip tx sigops k ptx p hk hfetch hcb himm
    unfold validateInputs
    exact validateInputsFrom_none verify v height acts ip tx k
      (fun vi s => connectInput_immature verify v height acts ip tx k vi s ptx p
        hfetch hcb himm)
      tx.inputs.length 0 0 sigops (Nat.zero_le k) (by omega)
  · decide

/-- C7 witness: the necessity direction applied at a mature concrete spend
(height 150 against the height-50 coinbase). -/
theorem connect_input_coinbase_maturity_witness :
    fetchTransaction immatureView
      ((immatureSpendTx.inputs.getD 0 default).previousOutput).hash =
        some (prevCoinbaseTx, 50) ∧
    isCoinbase prevCoinbaseTx = true ∧
    connectInput (fun _ _ _ _ => true) immatureView 150
      ⟨false, false, false, false, false⟩ 1 immatureSpendTx 0 0 0 = some (50, 0) ∧
    coinbaseMaturity ≤ 150 - 50 :=
  ⟨by decide, by decide, by decide,
    connect_input_coinbase_maturity.1 (fun _ _ _ _ => true) immatureView 150
      ⟨false, false, false, false, false⟩ 1 immatureSpendTx 0 0 0 prevCoinbaseTx 50
      (50, 0) (by decide) (by decide) (by decide)⟩

/-! ## C8 -/

theorem checkTransaction_ne_stopped (tx : Transaction) (e : Err)
    (h : checkTransaction tx = some e) : e ≠ Err.serviceStopped := by
  unfold checkTransaction at h
  split_ifs at h <;> cases h <;> decide

theorem firstViolatedCheck_ne_stopped (now : Nat) (b : Block) :
    firstViolatedCheck now b ≠ some Err.serviceStopped := by
  unfold firstViolatedCheck
  split_ifs <;> try simp
  all_goals
    cases hfs : b.transactions.findSome? checkTransaction with
    | none => simp
    | some e =>
      obtain ⟨tx, _, htx⟩ := List.exists_of_findSome?_eq_some hfs
      have hne := checkTransaction_ne_stopped tx e htx
      simp [hne]

theorem acceptBlock_noStop_ne_stopped (fetch : Nat → BlockHeader) (st : ValidatorState) :
    acceptBlock noStop fetch st ≠ some Err.serviceStopped := by
  intro hcon
  obtain ⟨kF, hF⟩ :=
    finalLoop_noStop st.block.transactions st.height st.block.header.timestamp 2
  unfold acceptBlock at hcon
  simp only [noStop, Bool.false_eq_true, if_false] at hcon
  rw [hF] at hcon
  by_cases hall : (st.block.transactions.all
      (fun tx => isFinal tx st.height st.block.header.timestamp) = true)
  · simp only [if_pos hall] at hcon
    split_ifs at hcon <;> exact absurd hcon (by simp)
  · simp only [if_neg hall] at hcon
    split_ifs at hcon <;> exact absurd hcon (by simp)

theorem connectLoop_noStop_fst_ne (verify : Script → Transaction → Nat → Activations → Bool)
    (v : ChainView) (height : Nat) (acts : Activations) :
    ∀ (txs : List Transaction) (k ti fees s : Nat),
      (connectLoop noStop verify v height acts k ti fees s txs).1 ≠
        some Err.serviceStopped := by
  intro txs
  induction txs with
  | nil => intro k ti fees s; simp [connectLoop]
  | cons tx rest ih =>
    intro k ti fees s
    simp only [connectLoop, noStop, Bool.false_eq_true, if_false]
    by_cases h1 : maxBlockScriptSigOperations < s + legacySigopsCountTx tx
    · rw [if_pos h1]
      simp
    · rw [if_neg h1]
      by_cases h2 : (isCoinbase tx = true)
      · rw [if_pos h2]
        exact ih (k + 1) (ti + 1) fees (s + legacySigopsCountTx tx)
      · rw [if_neg h2]
        cases hv : validateInputs verify v height acts ti tx
            (s + legacySigopsCountTx tx) with
        | none => simp
        | some pr =>
          obtain ⟨vi, s3⟩ := pr
          cases ht : tallyFees tx vi fees with
          | none => simp [ht]
          | some fees2 =>
            simp only [ht]
            exact ih (k + 3) (ti + 1) fees2 s3

theorem connectBlock_noStop_ne_stopped
    (verify : Script → Transaction → Nat → Activations → Bool)
    (v : ChainView) (st : ValidatorState) :
    connectBlock noStop verify v st ≠ some Err.serviceStopped := by
  intro hcon
  simp only [connectBlock, isActive_bip30, noStop, Bool.false_eq_true, if_false] at hcon
  cases hcl : connectLoop noStop verify v st.height st.activations 0 0 0 0
      st.block.transactions with
  | mk r pr =>
    obtain ⟨k1, fees⟩ := pr
    rw [hcl] at hcon
    cases r with
    | some e =>
      have hne := connectLoop_noStop_fst_ne verify v st.height st.activations
        st.block.transactions 0 0 0 0
      rw [hcl] at hne
      exact hne hcon
    | none =>
      replace hcon : (if blockValue st.height + fees <
          totalOutputValue (st.block.transactions.headD default) then
          some Err.coinbaseTooLarge else (none : Option Err)) =
          some Err.serviceStopped := hcon
      split_ifs at hcon <;> exact absurd hcon (by simp)

/-- C8 counterexample: with the stopped predicate constantly true and a block
failing proof of work, check_block returns ProofOfWork, not ServiceStopped:
there is no suspension point between the size check and the proof-of-work
check. -/
theorem check_block_stop_before_pow_cex :
    checkBlock allStop 0 powFailBlock = some Err.proofOfWork ∧
    Err.proofOfWork ≠ Err.serviceStopped := by
  constructor
  · decide
  · decide

/-- C8 (amended): the phases observe cancellation only at their suspension
points — after the proof-of-work step and between later steps of check_block
and between the per-transaction steps of connect_block, with no consultation
before check_block step 2 and none inside the input loop of validate_inputs —
and the phases are read-only, returning only an error code.  With cancellation
never observed, no phase returns ServiceStopped; with cancellation observed,
check_block returns ServiceStopped as soon as its size and proof-of-work
checks pass, and connect_block as soon as the first transaction passes its
sigop bound. -/
theorem suspension_points :
    (∀ (now : Nat) (b : Block), checkBlock noStop now b ≠ some Err.serviceStopped) ∧
    (∀ (fetch : Nat → BlockHeader) (st : ValidatorState),
      acceptBlock noStop fetch st ≠ some Err.serviceStopped) ∧
    (∀ (verify : Script → Transaction → Nat → Activations → Bool)
      (v : ChainView) (st : ValidatorState),
      connectBlock noStop verify v st ≠ some Err.serviceStopped) ∧
    (∀ (now : Nat) (b : Block),
      ¬(b.transactions.isEmpty ∨ maxBlockSize < b.transactions.length ∨
        maxBlockSize < blockRawSize b) →
      isValidProofOfWork (hashBlockHeader b.header) b.header.bits = true →
      checkBlock allStop now b = some Err.serviceStopped) ∧
    (∀ (verify : Script → Transaction → Nat → Activations → Bool)
      (v : ChainView) (st : ValidatorState),
      (st.block.transactions = [] ∨
        legacySigopsCountTx (st.block.transactions.headD default) ≤
          maxBlockScriptSigOperations) →
      connectBlock allStop verify v st = some Err.serviceStopped) := by
  refine ⟨?_, ?_, ?_, ?_, ?_⟩
  · intro now b
    rw [checkBlock_noStop_eq]
    exact firstViolatedCheck_ne_stopped now b
  · exact acceptBlock_noStop_ne_stopped
  · exact connectBlock_noStop_ne_stopped
  · intro now b hsz hpw
    unfold checkBlock
    rw [if_neg hsz]
    have hnp : ¬((!isValidProofOfWork (hashBlockHeader b.header) b.header.bits) = true) := by
      simp [hpw]
    rw [if_neg hnp, if_pos (show allStop 0 = true from rfl)]
  · intro verify v st hfirst
    simp only [connectBlock, isActive_bip30, Bool.false_eq_true, if_false]
    cases htxs : st.block.transactions with
    | nil => simp [connectLoop, allStop]
    | cons tx rest =>
      have hsig : legacySigopsCountTx tx ≤ maxBlockScriptSigOperations := by
        rcases hfirst with hnil | hle
        · rw [htxs] at hnil
          cases hnil
        · rw [htxs] at hle
          simpa using hle
      have hns : ¬(maxBlockScriptSigOperations < 0 + legacySigopsCountTx tx) := by
        omega
      simp only [connectLoop, allStop, hns, if_false, if_true]

/-- C8 witness: the stopped-at-first-suspension-point branch applied to a
concrete block with valid size and proof of work. -/
theorem suspension_points_witness :
    ¬(stopBlock.transactions.isEmpty ∨ maxBlockSize < stopBlock.transactions.length ∨
        maxBlockSize < blockRawSize stopBlock) ∧
    isValidProofOfWork (hashBlockHeader stopBlock.header) stopBlock.header.bits = true ∧
    checkBlock allStop 0 stopBlock = some Err.serviceStopped :=
  ⟨by decide, by decide, suspension_points.2.2.2.1 0 stopBlock (by decide) (by decide)⟩

end Bitprim
